import Mathlib

/-!
Verification of the wordmaster batch-enrichment pipeline
(scripts/wordlist_generator): the JSON repair parser
(utils/json_repair.py), the generator client retry loop
(utils/gemini_client.py), the checkpoint load/append logic and the
merge/sort output builder (generate_cet4.py, generate_jlpt_kanji.py).

Modelling conventions:
- Python JSON values are modelled by the inductive type Json below with
  integer numerals (the modelled inputs contain no floats, NaN or
  Infinity literals).
- Python dicts are modelled as insertion-ordered association lists with
  in-place update on existing keys (dictInsert), matching CPython
  semantics for iteration order and key overwrite.
- Records parsed from generator responses are modelled as structures in
  which every schema key is present, with the empty string standing for
  a missing or empty value, matching the pervasive use of
  dict.get(key, default) in the source.
- The regular-expression substitutions of json_repair.py are modelled
  by direct character-list scans proved against the concrete semantics
  of each pattern (left-to-right, non-overlapping, greedy).
-/

namespace Wordmaster

/-! ## JSON values and a strict parser modelling json.loads -/

/-- JSON values as produced by the Python json module, with numbers
restricted to integers (sufficient for all modelled inputs). Objects
are insertion-ordered key/value lists with last-wins duplicate keys,
as in a Python dict. -/
inductive Json where
  | null : Json
  | bool : Bool → Json
  | num : Int → Json
  | str : String → Json
  | arr : List Json → Json
  | obj : List (String × Json) → Json

/-- Insertion-ordered dictionary update: an existing key keeps its
position and gets the new value, a new key is appended at the end.
This is exactly CPython dict assignment d[k] = v. -/
def dictInsert {β : Type} (m : List (String × β)) (k : String) (v : β) :
    List (String × β) :=
  if m.any (fun p => p.1 == k) then
    m.map (fun p => if p.1 == k then (k, v) else p)
  else m ++ [(k, v)]

/-- Whitespace accepted between tokens by the strict JSON parser
(json.decoder ignores exactly space, tab, newline, carriage return). -/
def isJsonWs (c : Char) : Bool :=
  c = ' ' || c = '\t' || c = '\n' || c = '\r'

/-- Whitespace class of the regular expressions in json_repair.py and
of str.strip (ASCII fragment). -/
def isRegexWs (c : Char) : Bool :=
  c = ' ' || c = '\t' || c = '\n' || c = '\r' || c = '\x0b' || c = '\x0c'

/-- Drop leading JSON whitespace. -/
def skipWs (l : List Char) : List Char := l.dropWhile isJsonWs

/-- Value of one hexadecimal digit. -/
def hexVal (c : Char) : Option Nat :=
  if '0' ≤ c ∧ c ≤ '9' then some (c.toNat - '0'.toNat)
  else if 'a' ≤ c ∧ c ≤ 'f' then some (c.toNat - 'a'.toNat + 10)
  else if 'A' ≤ c ∧ c ≤ 'F' then some (c.toNat - 'A'.toNat + 10)
  else none

/-- Single-character JSON string escapes. -/
def escChar (c : Char) : Option Char :=
  if c = '"' then some '"'
  else if c = '\\' then some '\\'
  else if c = '/' then some '/'
  else if c = 'b' then some '\x08'
  else if c = 'f' then some '\x0c'
  else if c = 'n' then some '\n'
  else if c = 'r' then some '\r'
  else if c = 't' then some '\t'
  else none

/-- Parse the body of a JSON string (after the opening quote) up to and
including the closing quote, decoding escapes. Unescaped control
characters are rejected, as by json.loads in strict mode. Unicode
escapes are decoded individually (surrogate pairing is not modelled;
no modelled input uses it). -/
def parseStringAux : List Char → Option (List Char × List Char)
  | [] => none
  | c :: cs =>
    if c = '"' then some ([], cs)
    else if c = '\\' then
      match cs with
      | [] => none
      | e :: cs' =>
        if e = 'u' then
          match cs' with
          | h1 :: h2 :: h3 :: h4 :: cs'' =>
            match hexVal h1, hexVal h2, hexVal h3, hexVal h4 with
            | some a, some b, some c3, some d =>
              (parseStringAux cs'').map
                (fun p => (Char.ofNat (((a * 16 + b) * 16 + c3) * 16 + d) :: p.1, p.2))
            | _, _, _, _ => none
          | _ => none
        else
          match escChar e with
          | some ch => (parseStringAux cs').map (fun p => (ch :: p.1, p.2))
          | none => none
    else if c.toNat < 32 then none
    else (parseStringAux cs).map (fun p => (c :: p.1, p.2))

/-- Parse a JSON integer literal (optional minus, no leading zeros).
Inputs that continue with a fraction or exponent are outside the
modelled integer fragment and rejected. -/
def parseNum (l : List Char) : Option (Json × List Char) :=
  let (neg, l1) := match l with
    | '-' :: r => (true, r)
    | r => (false, r)
  let digits := l1.takeWhile Char.isDigit
  let rest := l1.dropWhile Char.isDigit
  if digits = [] then none
  else if digits.length > 1 ∧ digits.head? = some '0' then none
  else
    match rest with
    | c :: _ =>
      if c = '.' || c = 'e' || c = 'E' then none
      else
        let n : Nat := digits.foldl (fun acc d => acc * 10 + (d.toNat - '0'.toNat)) 0
        some (Json.num (if neg then -(n : Int) else (n : Int)), rest)
    | [] =>
      let n : Nat := digits.foldl (fun acc d => acc * 10 + (d.toNat - '0'.toNat)) 0
      some (Json.num (if neg then -(n : Int) else (n : Int)), rest)

mutual

/-- Recursive-descent JSON value parser over a character list with
explicit fuel (any fuel exceeding the input length is sufficient,
since every recursive call consumes at least one character). -/
def parseVal : Nat → List Char → Option (Json × List Char)
  | 0, _ => none
  | _ + 1, [] => none
  | fuel + 1, c :: rest =>
    if c = '\x7b' then
      let cs1 := skipWs rest
      match cs1 with
      | d :: cs2 => if d = '\x7d' then some (Json.obj [], cs2) else parseObjBody fuel cs1 []
      | [] => none
    else if c = '[' then
      let cs1 := skipWs rest
      match cs1 with
      | d :: cs2 => if d = ']' then some (Json.arr [], cs2) else parseArrBody fuel cs1 []
      | [] => none
    else if c = '"' then
      (parseStringAux rest).map (fun p => (Json.str (String.mk p.1), p.2))
    else if c = 't' then
      match rest with
      | 'r' :: 'u' :: 'e' :: r => some (Json.bool true, r)
      | _ => none
    else if c = 'f' then
      match rest with
      | 'a' :: 'l' :: 's' :: 'e' :: r => some (Json.bool false, r)
      | _ => none
    else if c = 'n' then
      match rest with
      | 'u' :: 'l' :: 'l' :: r => some (Json.null, r)
      | _ => none
    else if c = '-' || c.isDigit then parseNum (c :: rest)
    else none

/-- Parse the members of a JSON object, positioned at the first
character of a key (whitespace already skipped); duplicate keys follow
Python dict semantics via dictInsert. -/
def parseObjBody : Nat → List Char → List (String × Json) →
    Option (Json × List Char)
  | 0, _, _ => none
  | _ + 1, [], _ => none
  | fuel + 1, c :: rest, acc =>
    if c = '"' then
      match parseStringAux rest with
      | none => none
      | some (kchars, r1) =>
        match skipWs r1 with
        | ':' :: r3 =>
          match parseVal fuel (skipWs r3) with
          | none => none
          | some (v, r4) =>
            match skipWs r4 with
            | ',' :: r6 =>
              parseObjBody fuel (skipWs r6) (dictInsert acc (String.mk kchars) v)
            | d :: r6 =>
              if d = '\x7d' then
                some (Json.obj (dictInsert acc (String.mk kchars) v), r6)
              else none
            | [] => none
        | _ => none
    else none

/-- Parse the elements of a JSON array, positioned at the first
character of an element (whitespace already skipped). -/
def parseArrBody : Nat → List Char → List Json → Option (Json × List Char)
  | 0, _, _ => none
  | fuel + 1, cs, acc =>
    match parseVal fuel cs with
    | none => none
    | some (v, r1) =>
      match skipWs r1 with
      | ',' :: r2 => parseArrBody fuel (skipWs r2) (acc ++ [v])
      | d :: r2 => if d = ']' then some (Json.arr (acc ++ [v]), r2) else none
      | [] => none

end

/-- Strict parse of a whole document, modelling json.loads: one JSON
value surrounded by optional whitespace, nothing else. -/
def loadsL (l : List Char) : Option Json :=
  match parseVal (l.length + 1) (skipWs l) with
  | some (v, rest) => if skipWs rest = [] then some v else none
  | none => none

/-- String-level wrapper for loadsL. -/
def loads (s : String) : Option Json := loadsL s.toList

/-! ## The repair transforms of utils/json_repair.py -/

/-- Strip leading and trailing whitespace, modelling str.strip on the
ASCII whitespace fragment (json_repair.py line 21). -/
def pyStrip (l : List Char) : List Char :=
  ((l.dropWhile isRegexWs).reverse.dropWhile isRegexWs).reverse

/-- Model of str.lower on the ASCII fragment, defined by structural
recursion over the character list so that it evaluates inside the
kernel (Char.toLower lower-cases exactly the ASCII capitals, and the
modelled identifiers are ASCII; non-ASCII characters such as kanji are
fixed points under both). -/
def strLower (s : String) : String := String.mk (s.toList.map Char.toLower)

/-- Model of str.strip on the ASCII whitespace fragment, structural
over the character list. -/
def strStrip (s : String) : String := String.mk (pyStrip s.toList)

/-- Model of str.endswith, structural over the character lists. -/
def strEndsWith (s suffix : String) : Bool :=
  List.isSuffixOf suffix.toList s.toList

/-- Split a character list at whitespace characters, keeping empty
chunks, structural over the list. Together with a nonempty filter this
models str.split with no arguments. -/
def splitChunksAux : List Char → List Char → List String
  | [], cur => [String.mk cur.reverse]
  | c :: rest, cur =>
    if c.isWhitespace then String.mk cur.reverse :: splitChunksAux rest []
    else splitChunksAux rest (c :: cur)

/-- Whitespace-separated chunks of a string, including empty chunks. -/
def splitChunks (s : String) : List String := splitChunksAux s.toList []

/-- The backtick character, written by code point. -/
def fenceChar : Char := Char.ofNat 96

/-- Remove a leading markdown code fence, modelling
re.sub applied to the anchored pattern of json_repair.py line 24:
three backticks, the letters j s o, an optional n, then a greedy
whitespace run (which subsumes the optional newline). -/
def stripLeadFence (l : List Char) : List Char :=
  match l with
  | a :: b :: c :: 'j' :: 's' :: 'o' :: rest =>
    if a = fenceChar ∧ b = fenceChar ∧ c = fenceChar then
      let rest1 := if rest.head? = some 'n' then rest.tail else rest
      rest1.dropWhile isRegexWs
    else l
  | _ => l

/-- Remove a trailing markdown code fence, modelling
re.sub applied to the end-anchored pattern of json_repair.py line 25:
an optional newline, three backticks, then trailing whitespace. -/
def stripTrailFence (l : List Char) : List Char :=
  let revNoWs := l.reverse.dropWhile isRegexWs
  match revNoWs with
  | a :: b :: c :: rest =>
    if a = fenceChar ∧ b = fenceChar ∧ c = fenceChar then
      let rest1 := if rest.head? = some '\n' then rest.tail else rest
      rest1.reverse
    else l
  | _ => l

/-- Check whether a closing brace or bracket follows after optional
whitespace. -/
def closeAfterWs (l : List Char) : Bool :=
  match l.dropWhile isRegexWs with
  | c :: _ => c = '\x7d' || c = ']'
  | [] => false

/-- Delete every comma that is followed, after optional whitespace, by
a closing brace or bracket: the global substitution of
json_repair.py line 34 (the replacement keeps the whitespace and the
closing character, so deleting the comma is exactly equivalent). -/
def fixTrailingCommas : List Char → List Char
  | [] => []
  | c :: rest =>
    if c = ',' ∧ closeAfterWs rest then fixTrailingCommas rest
    else c :: fixTrailingCommas rest

/-- ASCII identifier start characters of the key-quoting pattern. -/
def isIdentStart (c : Char) : Bool :=
  ('a' ≤ c ∧ c ≤ 'z') || ('A' ≤ c ∧ c ≤ 'Z') || c = '_'

/-- ASCII identifier continuation characters of the key-quoting
pattern. -/
def isIdentChar (c : Char) : Bool :=
  isIdentStart c || ('0' ≤ c ∧ c ≤ '9')

/-- Try to match, after an opening brace or comma, the remainder of the
bare-key pattern of json_repair.py line 37: optional whitespace, an
identifier, optional whitespace, then a colon. Returns the identifier
and the text following the colon. -/
def matchBareKey (l : List Char) : Option (List Char × List Char) :=
  let l1 := l.dropWhile isRegexWs
  match l1.head? with
  | some c =>
    if isIdentStart c then
      let ident := l1.takeWhile isIdentChar
      let l2 := (l1.dropWhile isIdentChar).dropWhile isRegexWs
      match l2 with
      | ':' :: l3 => some (ident, l3)
      | _ => none
    else none
  | none => none

/-- Left-to-right, non-overlapping application of the bare-key quoting
substitution of json_repair.py line 37: each match of an opening brace
or comma, whitespace, identifier, whitespace, colon is replaced by the
brace or comma, the identifier in double quotes, and the colon; the
scan resumes after the colon. The fuel is the input length, which is
always sufficient because every step consumes at least one
character. -/
def quoteKeysAux : Nat → List Char → List Char
  | 0, l => l
  | _ + 1, [] => []
  | fuel + 1, c :: rest =>
    if c = '\x7b' ∨ c = ',' then
      match matchBareKey rest with
      | some (ident, rest') =>
        c :: '"' :: (ident ++ '"' :: ':' :: quoteKeysAux fuel rest')
      | none => c :: quoteKeysAux fuel rest
    else c :: quoteKeysAux fuel rest

/-- Quote bare identifier keys (json_repair.py line 37). -/
def quoteKeys (l : List Char) : List Char := quoteKeysAux l.length l

/-- The substring search of json_repair.py lines 47 and 54: the match
of a greedy bracket-to-bracket pattern is the span from the first
opening character to the last closing character, provided the former
precedes the latter. -/
def searchBracket (openC closeC : Char) (l : List Char) : Option (List Char) :=
  match l.findIdx? (fun c => c == openC),
        l.reverse.findIdx? (fun c => c == closeC) with
  | some i, some rj =>
    let j := l.length - 1 - rj
    if i < j then some ((l.drop i).take (j - i + 1)) else none
  | _, _ => none

/-- The text after stage 1 of repair_json: stripped of surrounding
whitespace and of markdown code fences (json_repair.py lines 21-25). -/
def stage1Text (raw : List Char) : List Char :=
  stripTrailFence (stripLeadFence (pyStrip raw))

/-- The text after the two textual repairs of json_repair.py lines
34-37: trailing separators removed, then bare keys quoted. Both are
applied before the next parse attempt. -/
def stage34Text (raw : List Char) : List Char :=
  quoteKeys (fixTrailingCommas (stage1Text raw))

/-- Faithful model of repair_json (json_repair.py lines 8-62):
strip and de-fence, try a strict parse; on failure apply the
trailing-comma fix and the bare-key quoting together and try again; on
failure try the extracted array substring, then the extracted object
substring, both taken from the transformed text; finally re-parse the
raw input, whose failure is the JSONDecodeError propagated to the
caller. -/
def repairJsonL (raw : List Char) : Except String Json :=
  let text1 := stage1Text raw
  match loadsL text1 with
  | some v => Except.ok v
  | none =>
    let text2 := stage34Text raw
    match loadsL text2 with
    | some v => Except.ok v
    | none =>
      let arrRes : Option Json :=
        match searchBracket '[' ']' text2 with
        | some sub => loadsL sub
        | none => none
      match arrRes with
      | some v => Except.ok v
      | none =>
        let objRes : Option Json :=
          match searchBracket '\x7b' '\x7d' text2 with
          | some sub => loadsL sub
          | none => none
        match objRes with
        | some v => Except.ok v
        | none =>
          match loadsL raw with
          | some v => Except.ok v
          | none => Except.error ("JSONDecodeError")

/-- String-level repair_json. -/
def repair_json (raw : String) : Except String Json :=
  repairJsonL raw.toList

/-- The parse step of GeminiClient.generate_word_data for one raw
response (gemini_client.py lines 94-98): the repaired parse result
must be a list; a successfully parsed non-list raises ValueError with
the message below, which the retry loop treats as an attempt
failure. -/
def parseGeneratorResponse (raw : String) : Except String (List Json) :=
  match repair_json raw with
  | Except.ok (Json.arr xs) => Except.ok xs
  | Except.ok _ => Except.error ("Response is not a list")
  | Except.error e => Except.error e

/-! ## Word records, validation and the generator client -/

/-- One example sentence of a lexical enrichment record. A missing
dict key is modelled as the empty string, matching the use of
ex.get(key) truthiness checks in the source. -/
structure ExampleEntry where
  sentence : String
  translation_cn : String
deriving DecidableEq

/-- One enrichment record for a word, as produced by the generator and
stored in the checkpoint. Missing keys are modelled as empty values. -/
structure WordEntry where
  word : String
  phonetic : String
  examples : List ExampleEntry
deriving DecidableEq

/-- Issue strings contributed by one example at zero-based index i,
modelling the loop of json_repair.py lines 91-95. -/
def exampleIssues (word : String) (i : Nat) (ex : ExampleEntry) : List String :=
  (if ex.sentence = "" then
    ["Example " ++ toString (i + 1) ++ " missing \x27sentence\x27 for: " ++ word]
   else []) ++
  (if ex.translation_cn = "" then
    ["Example " ++ toString (i + 1) ++ " missing \x27translation_cn\x27 for: " ++ word]
   else [])

/-- Faithful model of validate_word_entry (json_repair.py lines
65-97) on records whose keys are present: issues are informational
strings, empty values trigger them, and the word identifier is
embedded in every issue about a named record. -/
def validate_word_entry (entry : WordEntry) : List String :=
  let word := entry.word
  (if entry.word = "" then ["Missing \x27word\x27 field"] else []) ++
  (if entry.phonetic = "" then ["Missing \x27phonetic\x27 for: " ++ word] else []) ++
  (if entry.examples = [] then ["No examples for: " ++ word]
   else if entry.examples.length < 2 then
     ["Less than 2 examples for: " ++ word ++ " (has " ++
       toString entry.examples.length ++ ")"]
   else []) ++
  (entry.examples.enum.map (fun p => exampleIssues word p.1 p.2)).flatten

/-- The retry loop of GeminiClient.generate_word_data
(gemini_client.py lines 81-116). The oracle gives the outcome of
attempt number idx (zero-based): some results on success, none when
the request, the parse, or the list-shape check raises. Returns the
overall outcome, the number of generator invocations made, and the
list of sleep durations taken between attempts; a failed attempt is
followed by a sleep of retryDelay * (attempt + 1) when further
attempts remain, and by the exception escaping when none do. The
ok-with-no-attempts case models the unreachable final return,
reachable only with zero allowed attempts. -/
def genAttempts (oracle : Nat → Option (List WordEntry)) (retryDelay : ℚ) :
    Nat → Nat → Except Unit (List WordEntry) × Nat × List ℚ
  | _, 0 => (Except.ok [], 0, [])
  | idx, r + 1 =>
    match oracle idx with
    | some v => (Except.ok v, 1, [])
    | none =>
      if r = 0 then (Except.error (), 1, [])
      else
        let sub := genAttempts oracle retryDelay (idx + 1) r
        (sub.1, sub.2.1 + 1, retryDelay * ((idx : ℚ) + 1) :: sub.2.2)

/-- Behaviour of generate_word_data with max_retries attempts in
total, starting at attempt 0. -/
def generate_word_data (oracle : Nat → Option (List WordEntry))
    (maxRetries : Nat) (retryDelay : ℚ) :
    Except Unit (List WordEntry) × Nat × List ℚ :=
  genAttempts oracle retryDelay 0 maxRetries

/-- Words of a batch with no record in the response, compared through
lower-cased identifiers (gemini_client.py lines 100-102); the source
only prints a warning for them. -/
def missingWords (words : List String) (result : List WordEntry) : List String :=
  words.filter (fun w => !(result.any (fun item => strLower item.word == strLower w)))

/-! ## Checkpoint store (load_progress, save_progress) -/

/-- One replay step of load_progress (generate_cet4.py lines 181-185):
the lower-cased word is the key; entries with an empty key are
skipped; an existing key is overwritten. -/
def progressStep (m : List (String × WordEntry)) (item : WordEntry) :
    List (String × WordEntry) :=
  let w := strLower item.word
  if w = "" then m else dictInsert m w item

/-- Replay a checkpoint log on top of an existing mapping. -/
def loadInto (m : List (String × WordEntry)) (log : List WordEntry) :
    List (String × WordEntry) :=
  log.foldl progressStep m

/-- Model of load_progress (generate_cet4.py lines 166-188,
generate_jlpt_kanji.py lines 130-145 with the kanji key): replay the
append-only log top to bottom into an empty dict. -/
def load_progress (log : List WordEntry) : List (String × WordEntry) :=
  loadInto [] log

/-- Error raised when a checkpoint log that exists cannot be read. -/
inductive StoreError where
  | storeUnreadable : StoreError
deriving DecidableEq

/-- Model of load_progress including its input-output context
(generate_cet4.py lines 166-188): a missing file yields an empty
mapping; a present file with the jsonlines reader unavailable yields a
printed warning and an empty mapping; a present file containing an
unparseable line makes the jsonlines reader raise (its default
InvalidLineError), which propagates out of load_progress; otherwise
the parsed lines are replayed. -/
def load_progress_checked (fileExists : Bool) (readerAvailable : Bool)
    (lines : List (Option WordEntry)) :
    Except StoreError (List (String × WordEntry)) :=
  if fileExists = false then Except.ok []
  else if readerAvailable = false then Except.ok []
  else if lines.any (fun o => o.isNone) then Except.error StoreError.storeUnreadable
  else Except.ok (load_progress (lines.filterMap id))

/-! ## The batch loop of generate_wordlist -/

/-- The progress-dict update of generate_cet4.py lines 315-317: every
result is written under its lower-cased word. -/
def updateProgress (m : List (String × WordEntry)) (results : List WordEntry) :
    List (String × WordEntry) :=
  results.foldl (fun acc item => dictInsert acc (strLower item.word) item) m

/-- The validation loop of generate_cet4.py lines 307-312: every item
is validated, issues are only printed, and the item is appended to
valid_results unconditionally. -/
def collect_valid_results (results : List WordEntry) : List WordEntry :=
  results.foldl (fun acc item =>
    let _issues := validate_word_entry item
    acc ++ [item]) []

/-- The batch loop of generate_wordlist (generate_cet4.py lines
300-326), with each generate_word_data call abstracted to its outcome.
On success the results are validated (non-fatally), merged into the
progress dict and appended to the checkpoint log; on failure the loop
breaks. Returns the final progress dict, the final checkpoint log and
the number of batches processed successfully. -/
def runBatches : List (Except Unit (List WordEntry)) →
    List (String × WordEntry) → List WordEntry →
    List (String × WordEntry) × List WordEntry × Nat
  | [], prog, log => (prog, log, 0)
  | o :: rest, prog, log =>
    match o with
    | Except.error _ => (prog, log, 0)
    | Except.ok results =>
      let valid := collect_valid_results results
      let prog' := updateProgress prog valid
      let log' := log ++ valid
      let r := runBatches rest prog' log'
      (r.1, r.2.1, r.2.2 + 1)

/-! ## Source loader and output builder of generate_cet4.py -/

/-- One source translation, with the part-of-speech tag under key
type. -/
structure Translation where
  type : String
  translation : String
deriving DecidableEq

/-- One source phrase. -/
structure Phrase where
  phrase : String
  translation : String
deriving DecidableEq

/-- One raw entry of the KyleBing source file. -/
structure RawSourceEntry where
  word : String
  translations : List Translation
  phrases : List Phrase
deriving DecidableEq

/-- One deduplicated source item. -/
structure SrcWord where
  word : String
  translations : List Translation
  phrases : List Phrase
deriving DecidableEq

/-- Append the elements of new that are not already present, checking
membership against the growing list, as the merge loops of
load_source_data do (generate_cet4.py lines 87-95). -/
def mergeDedup {α : Type} [DecidableEq α] (xs : List α) (new : List α) : List α :=
  new.foldl (fun acc t => if t ∈ acc then acc else acc ++ [t]) xs

/-- One deduplication step of load_source_data (generate_cet4.py lines
75-95): key is the stripped, lower-cased word; empty keys are skipped;
a first occurrence creates the entry with the stripped display form;
translations and phrases are merged with order-preserving
deduplication. -/
def sourceStep (m : List (String × SrcWord)) (e : RawSourceEntry) :
    List (String × SrcWord) :=
  let w := strLower (strStrip e.word)
  if w = "" then m
  else
    let m1 := if m.any (fun p => p.1 == w) then m
              else m ++ [(w, ⟨strStrip e.word, [], []⟩)]
    m1.map (fun p =>
      if p.1 == w then
        (p.1, { p.2 with
                 translations := mergeDedup p.2.translations e.translations,
                 phrases := mergeDedup p.2.phrases e.phrases })
      else p)

/-- Model of load_source_data (generate_cet4.py lines 57-98): fold the
raw entries into the insertion-ordered dedup map and return its
values. -/
def load_source_data (raw : List RawSourceEntry) : List SrcWord :=
  (raw.foldl sourceStep []).map (fun p => p.2)

/-- The normalized dedup key of a raw source entry, none when the
entry is skipped. -/
def srcKey (e : RawSourceEntry) : Option String :=
  let w := strLower (strStrip e.word)
  if w = "" then none else some w

/-- The part-of-speech abbreviation map of normalize_part_of_speech
(generate_cet4.py lines 111-124). -/
def pos_map : List (String × String) :=
  [("n", "n."), ("v", "v."), ("vt", "vt."), ("vi", "vi."), ("adj", "adj."),
   ("adv", "adv."), ("prep", "prep."), ("conj", "conj."), ("pron", "pron."),
   ("int", "int."), ("art", "art."), ("num", "num.")]

/-- Split a part-of-speech tag as pos.replace, then whitespace split
with empty parts dropped (generate_cet4.py line 130). -/
def posParts (pos : String) : List String :=
  (splitChunks (String.mk (pos.toList.map (fun c => if c = '&' then ' ' else c)))).filter
    (fun s => s ≠ "")

/-- Insert one normalized part-of-speech abbreviation, modelling the
set insertion of generate_cet4.py lines 131-135 with first-insertion
order standing for the unspecified Python set iteration order. -/
def normTypesStep (acc : List String) (part : String) : List String :=
  let t := match List.lookup part pos_map with
    | some v => v
    | none => if strEndsWith part "." then part else part ++ "."
  if t ∈ acc then acc else acc ++ [t]

/-- The preferred ordering of generate_cet4.py line 141. -/
def posOrder : List String :=
  ["n.", "v.", "vt.", "vi.", "adj.", "adv.", "prep.", "conj.", "pron."]

/-- Sort key of generate_cet4.py line 142: position in the preferred
order, 100 for anything else. -/
def orderIdx (x : String) : Nat :=
  match posOrder.findIdx? (fun y => y == x) with
  | some i => i
  | none => 100

/-- Relation used to sort part-of-speech abbreviations. -/
def byPosIdxLe (a b : String) : Prop := orderIdx a ≤ orderIdx b

instance : DecidableRel byPosIdxLe :=
  fun a b => inferInstanceAs (Decidable (orderIdx a ≤ orderIdx b))

/-- Model of normalize_part_of_speech (generate_cet4.py lines
101-144). -/
def normalize_part_of_speech (translations : List Translation) : String :=
  let types := translations.foldl (fun acc trans =>
    (posParts (strStrip (strLower trans.type))).foldl normTypesStep acc) []
  if types = [] then ""
  else String.intercalate "/" (List.insertionSort byPosIdxLe types)

/-- Model of combine_translations (generate_cet4.py lines 147-163). -/
def combine_translations (translations : List Translation) : String :=
  let texts := translations.foldl (fun acc trans =>
    let text := strStrip trans.translation
    if text ≠ "" ∧ text ∉ acc then acc ++ [text] else acc) []
  String.intercalate "；" texts

/-- Suffix list of assign_difficulty (generate_cet4.py line 236). -/
def complexSuffixes : List String :=
  ["tion", "sion", "ment", "ness", "ical", "ious", "eous"]

/-- Model of assign_difficulty (generate_cet4.py lines 213-242); the
second source parameter is unused by the function body (the caller
passes the translations list). -/
def assign_difficulty (word : String) (_pos : List Translation) : Nat :=
  let word_lower := strLower word
  if word.length ≤ 5 then 1
  else if word.length ≥ 10 then 3
  else if complexSuffixes.any (fun s => strEndsWith word_lower s) then 3
  else 2

/-- One final output record of the cet4 artifact. -/
structure OutputWord where
  word : String
  translation_cn : String
  part_of_speech : String
  phonetic : String
  difficulty_level : Nat
  examples : List ExampleEntry
deriving DecidableEq

/-- The phrase fallback of generate_cet4.py lines 350-358: the first
two phrases, keeping only those with a nonempty phrase text. -/
def phraseExamples (phrases : List Phrase) : List ExampleEntry :=
  (phrases.take 2).filterMap (fun p =>
    if p.phrase ≠ "" then some ⟨p.phrase, p.translation⟩ else none)

/-- The merge step for one source item (generate_cet4.py lines
332-360): authoritative fields from the source entry, generated fields
from the checkpoint mapping when present, defaulting to empty, with
the phrase fallback for examples. -/
def mergeWord (progress : List (String × WordEntry)) (e : SrcWord) : OutputWord :=
  let api := List.lookup (strLower e.word) progress
  let phonetic := match api with | some a => a.phonetic | none => ""
  let examples0 := match api with | some a => a.examples | none => []
  let examples :=
    if examples0 = [] ∧ e.phrases ≠ [] then phraseExamples e.phrases else examples0
  { word := e.word,
    translation_cn := combine_translations e.translations,
    part_of_speech := normalize_part_of_speech e.translations,
    phonetic := phonetic,
    difficulty_level := assign_difficulty e.word e.translations,
    examples := examples }

/-- The pending-word computation of generate_cet4.py lines 279-284:
source words whose lower-cased form has no checkpoint entry. -/
def words_needing_api (source : List SrcWord)
    (progress : List (String × WordEntry)) : List String :=
  (source.filter (fun e => (List.lookup (strLower e.word) progress).isNone)).map
    (fun e => e.word)

/-- The sort relation of generate_cet4.py line 363: by lower-cased
word. -/
def byWordLe (a b : OutputWord) : Prop := strLower a.word ≤ strLower b.word

instance : DecidableRel byWordLe :=
  fun a b => inferInstanceAs (Decidable (strLower a.word ≤ strLower b.word))

instance : IsTotal OutputWord byWordLe :=
  ⟨fun a b => le_total (strLower a.word) (strLower b.word)⟩

instance : IsTrans OutputWord byWordLe := ⟨fun _ _ _ => le_trans⟩

/-- The in-place stable sort of generate_cet4.py line 363, modelled by
a stable sorting algorithm (Python list.sort is stable). -/
def sortOutput (l : List OutputWord) : List OutputWord :=
  List.insertionSort byWordLe l

/-- The words array of the final cet4 artifact: merge every
deduplicated source item with the checkpoint, then sort. -/
def finalWords (raw : List RawSourceEntry)
    (progress : List (String × WordEntry)) : List OutputWord :=
  sortOutput ((load_source_data raw).map (mergeWord progress))

/-! ## The kanji generator merge and sort -/

/-- One example word of a kanji enrichment record. -/
structure KanjiExample where
  word : String
  reading : String
  translation_cn : String
deriving DecidableEq

/-- One kanji enrichment record. -/
structure KanjiData where
  kanji : String
  translation_cn : String
  onyomi : String
  kunyomi : String
  examples : List KanjiExample
deriving DecidableEq

/-- One source kanji item (generate_jlpt_kanji.py lines 112-122). -/
structure KanjiSrc where
  kanji : String
  strokes : Option Nat
  frequency : Option Nat
  description : String
deriving DecidableEq

/-- One final output record of a kanji artifact (generate_jlpt_kanji.py
lines 267-277). -/
structure KanjiOut where
  word : String
  translation_cn : String
  onyomi : String
  kunyomi : String
  strokes : Option Nat
  frequency : Option Nat
  jlpt_level : String
  difficulty_level : Nat
  examples : List KanjiExample
deriving DecidableEq

/-- The merge step for one kanji (generate_jlpt_kanji.py lines 263-279):
enrichment fields come from the checkpoint when present and default to
the empty string or empty list. -/
def mergeKanji (progress : List (String × KanjiData)) (level : String)
    (difficulty : Nat) (e : KanjiSrc) : KanjiOut :=
  let api := List.lookup e.kanji progress
  { word := e.kanji,
    translation_cn := match api with | some a => a.translation_cn | none => "",
    onyomi := match api with | some a => a.onyomi | none => "",
    kunyomi := match api with | some a => a.kunyomi | none => "",
    strokes := e.strokes,
    frequency := e.frequency,
    jlpt_level := level,
    difficulty_level := difficulty,
    examples := match api with | some a => a.examples | none => [] }

/-- The sort key of generate_jlpt_kanji.py line 282: the frequency,
with a falsy frequency (absent or zero) replaced by 9999. -/
def freqKey (f : Option Nat) : Nat :=
  match f with
  | some n => if n = 0 then 9999 else n
  | none => 9999

/-- The sort relation of generate_jlpt_kanji.py line 282. -/
def byFreqLe (a b : KanjiOut) : Prop := freqKey a.frequency ≤ freqKey b.frequency

instance : DecidableRel byFreqLe :=
  fun a b => inferInstanceAs (Decidable (freqKey a.frequency ≤ freqKey b.frequency))

instance : IsTotal KanjiOut byFreqLe :=
  ⟨fun a b => le_total (freqKey a.frequency) (freqKey b.frequency)⟩

instance : IsTrans KanjiOut byFreqLe := ⟨fun _ _ _ => le_trans⟩

/-- The stable frequency sort of generate_jlpt_kanji.py line 282. -/
def sortKanji (l : List KanjiOut) : List KanjiOut :=
  List.insertionSort byFreqLe l

/-- The words array of a final kanji artifact. -/
def kanjiWords (src : List KanjiSrc) (progress : List (String × KanjiData))
    (level : String) (difficulty : Nat) : List KanjiOut :=
  sortKanji (src.map (mergeKanji progress level difficulty))

/-- The newest checkpoint entry for a nonempty key k, computed by a
top-to-bottom scan in which later matches override earlier ones. -/
def lastWinsFrom (k : String) (acc : Option WordEntry) (log : List WordEntry) :
    Option WordEntry :=
  log.foldl (fun a item =>
    if strLower item.word = k ∧ k ≠ "" then some item else a) acc

/-- The newest checkpoint entry for key k in a log, none for the empty
key (entries with an empty key are skipped by load_progress). -/
def lastWins (log : List WordEntry) (k : String) : Option WordEntry :=
  lastWinsFrom k none log

/-! ## Helper lemmas about the ordered-dictionary operations -/

theorem lookup_cons {β : Type} (k a : String) (b : β) (m : List (String × β)) :
    List.lookup k ((a, b) :: m) = if k = a then some b else List.lookup k m := by
  by_cases h : k = a
  · simp [List.lookup, h]
  · have hb : (k == a) = false := by simp [h]
    simp [List.lookup, hb, h]

theorem lookup_map_replace {β : Type} (j k : String) (v : β) (h : j ≠ k) :
    ∀ m : List (String × β),
      List.lookup k (m.map (fun p => if p.1 == j then (j, v) else p)) =
        List.lookup k m
  | [] => rfl
  | (a, b) :: m => by
    by_cases hp : a = j
    · have hb : ((a, b).1 == j) = true := by simp [hp]
      simp only [List.map_cons, hb, if_true]
      rw [lookup_cons, lookup_cons, lookup_map_replace j k v h m, hp,
        if_neg (Ne.symm h), if_neg (Ne.symm h)]
    · have hb : ((a, b).1 == j) = false := by simp [hp]
      simp only [List.map_cons, hb, Bool.false_eq_true, if_false]
      rw [lookup_cons, lookup_cons, lookup_map_replace j k v h m]

theorem lookup_map_self {β : Type} (j : String) (v : β) :
    ∀ m : List (String × β), m.any (fun p => p.1 == j) = true →
      List.lookup j (m.map (fun p => if p.1 == j then (j, v) else p)) = some v
  | [], hany => by simp at hany
  | (a, b) :: m, hany => by
    by_cases hp : a = j
    · have hb : ((a, b).1 == j) = true := by simp [hp]
      simp only [List.map_cons, hb, if_true]
      rw [lookup_cons, if_pos rfl]
    · have hb : ((a, b).1 == j) = false := by simp [hp]
      have hany' : m.any (fun p => p.1 == j) = true := by
        simp only [List.any_cons, hb, Bool.false_or] at hany
        exact hany
      simp only [List.map_cons, hb, Bool.false_eq_true, if_false]
      rw [lookup_cons, if_neg (fun hc => hp hc.symm)]
      exact lookup_map_self j v m hany'

theorem lookup_append_right {β : Type} (k : String) (v : β) :
    ∀ m : List (String × β), (∀ p ∈ m, p.1 ≠ k) →
      List.lookup k (m ++ [(k, v)]) = some v
  | [], _ => by rw [List.nil_append, lookup_cons, if_pos rfl]
  | (a, b) :: m, h => by
    have hp : a ≠ k := h (a, b) (List.mem_cons_self _ m)
    rw [List.cons_append, lookup_cons, if_neg (Ne.symm hp)]
    exact lookup_append_right k v m (fun q hq => h q (List.mem_cons_of_mem _ hq))

theorem any_of_lookup_some {β : Type} (k : String) (v : β) :
    ∀ m : List (String × β), List.lookup k m = some v →
      m.any (fun p => p.1 == k) = true
  | [], h => by simp [List.lookup] at h
  | (a, b) :: m, h => by
    rw [lookup_cons] at h
    by_cases hk : k = a
    · simp [List.any_cons, hk]
    · rw [if_neg hk] at h
      simp only [List.any_cons, Bool.or_eq_true]
      exact Or.inr (any_of_lookup_some k v m h)

theorem lookup_dictInsert_self {β : Type} (m : List (String × β)) (j : String)
    (v : β) : List.lookup j (dictInsert m j v) = some v := by
  unfold dictInsert
  split
  case isTrue hany => exact lookup_map_self j v m hany
  case isFalse hany =>
    apply lookup_append_right
    intro p hp hc
    exact hany (List.any_eq_true.mpr ⟨p, hp, by simp [hc]⟩)

theorem lookup_dictInsert_ne {β : Type} (m : List (String × β)) (j k : String)
    (v : β) (h : j ≠ k) :
    List.lookup k (dictInsert m j v) = List.lookup k m := by
  unfold dictInsert
  split
  · exact lookup_map_replace j k v h m
  · rename_i hany
    induction m with
    | nil =>
      have hb : (k == j) = false := by simp [Ne.symm h]
      simp [List.lookup, hb]
    | cons p m ih =>
      rw [List.cons_append]
      rcases p with ⟨a, b⟩
      rw [lookup_cons, lookup_cons]
      by_cases hk : k = a
      · simp [hk]
      · rw [if_neg hk, if_neg hk]
        exact ih (fun hc => hany (by
          rw [List.any_cons, hc, Bool.or_true]))

theorem length_dictInsert {β : Type} (m : List (String × β)) (j : String) (v : β) :
    (dictInsert m j v).length =
      if m.any (fun p => p.1 == j) then m.length else m.length + 1 := by
  unfold dictInsert
  split <;> simp_all

/-! ## Replay lemmas for the checkpoint store -/

theorem lastWinsFrom_isSome (k : String) :
    ∀ (log : List WordEntry) (acc : Option WordEntry), acc.isSome = true →
      (lastWinsFrom k acc log).isSome = true
  | [], _, h => h
  | it :: rest, acc, h => by
    have hstep : lastWinsFrom k acc (it :: rest) =
        lastWinsFrom k (if strLower it.word = k ∧ k ≠ "" then some it else acc)
          rest := rfl
    rw [hstep]
    apply lastWinsFrom_isSome k rest
    split
    · rfl
    · exact h

theorem lookup_loadInto (k : String) :
    ∀ (log : List WordEntry) (m : List (String × WordEntry))
      (acc : Option WordEntry),
      (∀ v, acc = some v → List.lookup k m = some v) →
      List.lookup k (loadInto m log) =
        match lastWinsFrom k acc log with
        | some v => some v
        | none => List.lookup k m
  | [], m, acc, hacc => by
    cases hae : acc with
    | none => simp [loadInto, lastWinsFrom, hae]
    | some v =>
      simp only [loadInto, List.foldl_nil, lastWinsFrom, hae]
      exact hacc v hae
  | it :: rest, m, acc, hacc => by
    have hstep : loadInto m (it :: rest) = loadInto (progressStep m it) rest := rfl
    have hl : lastWinsFrom k acc (it :: rest) =
        lastWinsFrom k (if strLower it.word = k ∧ k ≠ "" then some it else acc)
          rest := rfl
    rw [hstep, hl]
    by_cases hit : strLower it.word = k ∧ k ≠ ""
    · rw [if_pos hit]
      have hacc' : ∀ v, some it = some v →
          List.lookup k (progressStep m it) = some v := by
        intro v hv
        injection hv with hv
        subst hv
        unfold progressStep
        rw [if_neg (hit.1 ▸ hit.2)]
        rw [hit.1]
        exact lookup_dictInsert_self m k it
      rw [lookup_loadInto k rest (progressStep m it) (some it) hacc']
      cases hw : lastWinsFrom k (some it) rest with
      | some v => rfl
      | none =>
        have := lastWinsFrom_isSome k rest (some it) rfl
        rw [hw] at this
        exact absurd this (by simp)
    · rw [if_neg hit]
      have hmm : List.lookup k (progressStep m it) = List.lookup k m := by
        show List.lookup k
          (if strLower it.word = "" then m else dictInsert m (strLower it.word) it) =
          List.lookup k m
        by_cases hw : strLower it.word = ""
        · rw [if_pos hw]
        · rw [if_neg hw]
          apply lookup_dictInsert_ne
          intro hc
          by_cases hk : k = ""
          · exact hw (hc.trans hk)
          · exact hit ⟨hc, hk⟩
      have hacc' : ∀ v, acc = some v →
          List.lookup k (progressStep m it) = some v := by
        intro v hv
        rw [hmm]
        exact hacc v hv
      rw [lookup_loadInto k rest (progressStep m it) acc hacc']
      cases lastWinsFrom k acc rest with
      | some v => rfl
      | none => exact hmm

/-- C2: checkpoint replay is last-wins and idempotent. Conjunct one:
load reads the log top to bottom and for repeated ids the later entry
overwrites the earlier one, so every lookup returns the newest entry
for that id. Conjunct two: replaying the same log a second time over
the loaded mapping changes no answer of the mapping. Conjunct three:
appending a record for an id already present and replaying yields the
newest value for that id and does not increase the size of the
mapping. -/
theorem claim2_checkpoint_replay :
    (∀ (log : List WordEntry) (k : String),
      List.lookup k (load_progress log) = lastWins log k) ∧
    (∀ (log : List WordEntry) (k : String),
      List.lookup k (loadInto (load_progress log) log) =
        List.lookup k (load_progress log)) ∧
    (∀ (log : List WordEntry) (r : WordEntry), strLower r.word ≠ "" →
      (List.lookup (strLower r.word) (load_progress log)).isSome = true →
      List.lookup (strLower r.word) (load_progress (log ++ [r])) = some r ∧
        (load_progress (log ++ [r])).length = (load_progress log).length) := by
  have hbase : ∀ (log : List WordEntry) (k : String),
      List.lookup k (load_progress log) = lastWins log k := by
    intro log k
    unfold load_progress lastWins
    rw [lookup_loadInto k log [] none (by intro v hv; cases hv)]
    cases lastWinsFrom k none log with
    | some v => rfl
    | none => rfl
  refine ⟨hbase, ?_, ?_⟩
  · intro log k
    rw [lookup_loadInto k log (load_progress log) none (by intro v hv; cases hv)]
    cases hw : lastWinsFrom k none log with
    | some v =>
      rw [hbase log k]
      unfold lastWins
      rw [hw]
    | none => rfl
  · intro log r hne hsome
    have hfold : load_progress (log ++ [r]) =
        progressStep (load_progress log) r := by
      unfold load_progress loadInto
      rw [List.foldl_append]
      rfl
    have hps : progressStep (load_progress log) r =
        dictInsert (load_progress log) (strLower r.word) r := by
      unfold progressStep
      rw [if_neg hne]
    obtain ⟨v, hv⟩ := Option.isSome_iff_exists.mp hsome
    constructor
    · rw [hfold, hps]
      exact lookup_dictInsert_self (load_progress log) (strLower r.word) r
    · rw [hfold, hps, length_dictInsert,
        if_pos (any_of_lookup_some (strLower r.word) v (load_progress log) hv)]

/-- Witness for C2 at a concrete log: two records with the same
case-insensitive id; the replayed mapping holds the newest one and has
size one. -/
theorem claim2_witness :
    List.lookup ("cat")
        (load_progress [⟨"Cat", "a", []⟩, ⟨"cAt", "b", []⟩]) =
      some ⟨"cAt", "b", []⟩ ∧
    (load_progress [⟨"Cat", "a", []⟩, ⟨"cAt", "b", []⟩]).length =
      (load_progress [⟨"Cat", "a", []⟩]).length := by
  have h := claim2_checkpoint_replay.2.2 [⟨"Cat", "a", []⟩] ⟨"cAt", "b", []⟩
    (by decide) (by decide)
  exact ⟨h.1, h.2⟩

/-- C4 (amended): when the checkpoint log exists and the reader
capability is available, an unparseable line makes load fail with the
store-unreadable error instead of returning an empty mapping; but when
the reader capability is unavailable, load returns an empty mapping
(after a printed warning) even though a log is present. -/
theorem claim4_unreadable_vs_empty :
    (∀ lines : List (Option WordEntry), lines.any (fun o => o.isNone) = true →
      load_progress_checked true true lines =
        Except.error StoreError.storeUnreadable) ∧
    (∀ lines : List (Option WordEntry),
      load_progress_checked true false lines = Except.ok []) := by
  constructor
  · intro lines h
    unfold load_progress_checked
    simp [h]
  · intro lines
    rfl

/-- C4 counterexample: the claim states that load fails whenever the
log exists but cannot be parsed, including the reader capability being
unavailable; but with the log present and the reader unavailable the
code returns an empty mapping, not a failure. -/
theorem claim4_counterexample :
    load_progress_checked true false [some ⟨"cat", "k", []⟩] = Except.ok [] ∧
    load_progress_checked true false [some ⟨"cat", "k", []⟩] ≠
      Except.error StoreError.storeUnreadable :=
  ⟨rfl, fun h => Except.noConfusion h⟩

/-- Witness for the amended C4: a present log with one unparseable
line makes load fail. -/
theorem claim4_witness :
    load_progress_checked true true [none] =
      Except.error StoreError.storeUnreadable :=
  claim4_unreadable_vs_empty.1 [none] rfl

/-- C5 (amended): the repair stages run in their numbered order, but
stages 3 and 4 are applied together after the strict parse of stage 2
fails, with one parse attempt after both; the substring extraction of
stage 5 is attempted only when that combined parse also fails, and it
searches the transformed text. -/
theorem claim5_staged_fallback (raw : String) :
    (∀ v, loadsL (stage1Text raw.toList) = some v →
      repair_json raw = Except.ok v) ∧
    (loadsL (stage1Text raw.toList) = none →
      ∀ w, loadsL (stage34Text raw.toList) = some w →
        repair_json raw = Except.ok w) ∧
    (loadsL (stage1Text raw.toList) = none →
      loadsL (stage34Text raw.toList) = none →
      ∀ sub u, searchBracket '[' ']' (stage34Text raw.toList) = some sub →
        loadsL sub = some u → repair_json raw = Except.ok u) := by
  refine ⟨?_, ?_, ?_⟩
  · intro v hv
    simp only [repair_json, repairJsonL, hv]
  · intro h1 w hw
    simp only [repair_json, repairJsonL, h1, hw]
  · intro h1 h2 sub u hsub hu
    simp only [repair_json, repairJsonL, h1, h2, hsub, hu]

/-- C5 counterexample: an input on which the result of stage 3 alone
(removing the trailing separator) parses successfully, while
repair_json fails altogether, because stage 4 (bare-key quoting) is
applied to the stage-3 text without first attempting to parse it, and
corrupts a brace-and-colon pattern inside a string literal. Under the
claimed each-stage-only-if-previous-failed order the parse would have
returned the stage-3 value. -/
theorem claim5_counterexample :
    loadsL (fixTrailingCommas
        (stage1Text ("[\x7b\"a\": \"\x7bb: 1\x7d\"\x7d,]".toList))) =
      some (Json.arr [Json.obj [("a", Json.str ("\x7bb: 1\x7d"))]]) ∧
    repair_json "[\x7b\"a\": \"\x7bb: 1\x7d\"\x7d,]" =
      Except.error ("JSONDecodeError") :=
  ⟨rfl, rfl⟩

/-- Witness for the amended C5: a trailing-comma array fails the
strict parse, and the combined stage 3 and 4 text parses, so
repair_json returns its value. -/
theorem claim5_witness :
    repair_json "[1,]" = Except.ok (Json.arr [Json.num 1]) :=
  (claim5_staged_fallback "[1,]").2.1 rfl (Json.arr [Json.num 1]) rfl

/-- C8: the repair parser accepts the trailing-comma record list and
returns the one-element sequence equal to the parse of the same text
without the trailing comma. -/
theorem claim8_trailing_comma_accepted :
    repair_json "[\x7b\"word\": \"cat\", \"phonetic\": \"/kæt/\",\x7d]" =
      Except.ok (Json.arr [Json.obj
        [("word", Json.str ("cat")), ("phonetic", Json.str ("/kæt/"))]]) ∧
    repair_json "[\x7b\"word\": \"cat\", \"phonetic\": \"/kæt/\"\x7d]" =
      Except.ok (Json.arr [Json.obj
        [("word", Json.str ("cat")), ("phonetic", Json.str ("/kæt/"))]]) :=
  ⟨rfl, rfl⟩

/-- C9: the value returned by the generator parse step is always a
sequence: a successfully repaired non-sequence value is turned into
the not-a-list failure, and every successful parse-step result comes
from a repaired sequence. -/
theorem claim9_nonsequence_rejected :
    (∀ (raw : String) (v : Json), repair_json raw = Except.ok v →
      (∀ xs, v ≠ Json.arr xs) →
      parseGeneratorResponse raw = Except.error ("Response is not a list")) ∧
    (∀ (raw : String) (xs : List Json),
      parseGeneratorResponse raw = Except.ok xs →
      repair_json raw = Except.ok (Json.arr xs)) := by
  constructor
  · intro raw v hv hne
    unfold parseGeneratorResponse
    rw [hv]
    cases v with
    | arr xs => exact absurd rfl (hne xs)
    | null => rfl
    | bool b => rfl
    | num n => rfl
    | str s => rfl
    | obj kvs => rfl
  · intro raw xs h
    unfold parseGeneratorResponse at h
    cases hv : repair_json raw with
    | ok v =>
      rw [hv] at h
      cases v with
      | arr ys =>
        simp only at h
        injection h with h
        rw [h]
      | null => exact absurd h (by simp)
      | bool b => exact absurd h (by simp)
      | num n => exact absurd h (by simp)
      | str s => exact absurd h (by simp)
      | obj kvs => exact absurd h (by simp)
    | error e =>
      rw [hv] at h
      exact absurd h (by simp)

/-- Witness for C9: a repaired single object is rejected by the parse
step with the not-a-list failure. -/
theorem claim9_witness :
    parseGeneratorResponse "\x7b\"a\": 1\x7d" =
      Except.error ("Response is not a list") :=
  claim9_nonsequence_rejected.1 "\x7b\"a\": 1\x7d" (Json.obj [("a", Json.num 1)])
    rfl (fun _ h => Json.noConfusion h)

/-! ## Lemmas about the retry loop and the batch loop -/

theorem collect_valid_results_eq (results : List WordEntry) :
    collect_valid_results results = results := by
  have h : ∀ (l : List WordEntry) (acc : List WordEntry),
      l.foldl (fun acc item =>
        let _issues := validate_word_entry item
        acc ++ [item]) acc = acc ++ l := by
    intro l
    induction l with
    | nil => intro acc; simp
    | cons x l ih =>
      intro acc
      rw [List.foldl_cons]
      rw [ih (acc ++ [x])]
      simp
  simpa [collect_valid_results] using h results []

theorem genAttempts_shape (oracle : Nat → Option (List WordEntry)) (δ : ℚ) :
    ∀ (r idx : Nat),
      (genAttempts oracle δ idx r).2.1 ≤ r ∧
      (0 < r → 0 < (genAttempts oracle δ idx r).2.1) ∧
      ((genAttempts oracle δ idx r).1 = Except.error () →
        (genAttempts oracle δ idx r).2.1 = r) ∧
      (genAttempts oracle δ idx r).2.2 =
        (List.range ((genAttempts oracle δ idx r).2.1 - 1)).map
          (fun i : Nat => δ * ((idx : ℚ) + (i : ℚ) + 1))
  | 0, idx => by
    refine ⟨Nat.le_refl 0, by simp, fun _ => rfl, by simp [genAttempts]⟩
  | r + 1, idx => by
    cases ho : oracle idx with
    | some v =>
      have hg : genAttempts oracle δ idx (r + 1) = (Except.ok v, 1, []) := by
        unfold genAttempts
        rw [ho]
      rw [hg]
      refine ⟨Nat.succ_le_succ (Nat.zero_le r), fun _ => Nat.one_pos, ?_, by simp⟩
      intro h
      exact absurd h (by simp)
    | none =>
      by_cases hr : r = 0
      · subst hr
        have hg : genAttempts oracle δ idx 1 = (Except.error (), 1, []) := by
          unfold genAttempts
          rw [ho]
          simp
        rw [hg]
        exact ⟨Nat.le_refl 1, fun _ => Nat.one_pos, fun _ => rfl, by simp⟩
      · have hg : genAttempts oracle δ idx (r + 1) =
            ((genAttempts oracle δ (idx + 1) r).1,
             (genAttempts oracle δ (idx + 1) r).2.1 + 1,
             δ * ((idx : ℚ) + 1) :: (genAttempts oracle δ (idx + 1) r).2.2) := by
          conv_lhs => rw [genAttempts]
          rw [ho, if_neg hr]
        obtain ⟨ih1, ih2, ih3, ih4⟩ := genAttempts_shape oracle δ r (idx + 1)
        rw [hg]
        refine ⟨Nat.succ_le_succ ih1, fun _ => Nat.succ_pos _, ?_, ?_⟩
        · intro herr
          simp only at herr
          rw [ih3 herr]
        · simp only [Nat.add_sub_cancel]
          obtain ⟨n', hn'⟩ : ∃ n', (genAttempts oracle δ (idx + 1) r).2.1 = n' + 1 :=
            ⟨(genAttempts oracle δ (idx + 1) r).2.1 - 1,
              (Nat.succ_pred_eq_of_pos (ih2 (Nat.pos_of_ne_zero hr))).symm⟩
          rw [ih4, hn']
          simp only [Nat.add_sub_cancel]
          rw [List.range_succ_eq_map, List.map_cons, List.map_map]
          congr 1
          · push_cast
            ring
          · apply List.map_congr_left
            intro i _
            simp only [Function.comp_apply]
            push_cast
            ring

theorem runBatches_untilFailure (rest : List (Except Unit (List WordEntry))) :
    ∀ (rss : List (List WordEntry)) (prog : List (String × WordEntry))
      (log : List WordEntry),
      runBatches (rss.map Except.ok ++ Except.error () :: rest) prog log =
        (rss.foldl updateProgress prog, log ++ rss.flatten, rss.length)
  | [], prog, log => by simp [runBatches]
  | rs :: rss, prog, log => by
    simp only [List.map_cons, List.cons_append, runBatches,
      collect_valid_results_eq, List.append_eq]
    rw [runBatches_untilFailure rest rss (updateProgress prog rs) (log ++ rs)]
    simp [List.append_assoc]

theorem lookup_updateProgress_ne (k : String) :
    ∀ (rs : List WordEntry) (prog : List (String × WordEntry)),
      (∀ r ∈ rs, strLower r.word ≠ k) →
      List.lookup k (updateProgress prog rs) = List.lookup k prog
  | [], _, _ => rfl
  | r :: rs, prog, h => by
    have hr : strLower r.word ≠ k := h r (List.mem_cons_self r rs)
    have hstep : updateProgress prog (r :: rs) =
        updateProgress (dictInsert prog (strLower r.word) r) rs := rfl
    rw [hstep,
      lookup_updateProgress_ne k rs _ (fun q hq => h q (List.mem_cons_of_mem r hq)),
      lookup_dictInsert_ne prog (strLower r.word) k r hr]

theorem missing_not_in_results (ws : List String) (rs : List WordEntry)
    (w : String) (hw : w ∈ missingWords ws rs) :
    ∀ r ∈ rs, strLower r.word ≠ strLower w := by
  intro r hr hc
  have hany : rs.any (fun item => strLower item.word == strLower w) = true :=
    List.any_eq_true.mpr ⟨r, hr, by rw [hc, beq_self_eq_true]⟩
  have h := (List.mem_filter.mp hw).2
  rw [hany] at h
  exact absurd h (by simp)

/-- C3 (amended): per batch, the generator invocation is attempted up
to maxRetries times in total (the initial call plus at most
maxRetries - 1 retries, so the exhausted case makes exactly maxRetries
invocations); the sleep before retry number n is retryDelay * n
(linear backoff: the first retry waits retryDelay, the second waits
twice that); and once a batch fails, the run processes no later
batches while every previously appended batch stays in the checkpoint
log unchanged, in order, with the pre-existing log as a prefix. -/
theorem claim3_retry_backoff_and_abort :
    (∀ (oracle : Nat → Option (List WordEntry)) (δ : ℚ) (m : Nat),
      (generate_word_data oracle m δ).2.1 ≤ m ∧
      ((generate_word_data oracle m δ).1 = Except.error () →
        (generate_word_data oracle m δ).2.1 = m) ∧
      (generate_word_data oracle m δ).2.2 =
        (List.range ((generate_word_data oracle m δ).2.1 - 1)).map
          (fun i : Nat => δ * ((i : ℚ) + 1))) ∧
    (∀ (rss : List (List WordEntry)) (rest : List (Except Unit (List WordEntry)))
      (prog : List (String × WordEntry)) (log : List WordEntry),
      runBatches (rss.map Except.ok ++ Except.error () :: rest) prog log =
        (rss.foldl updateProgress prog, log ++ rss.flatten, rss.length)) := by
  constructor
  · intro oracle δ m
    obtain ⟨h1, _, h3, h4⟩ := genAttempts_shape oracle δ m 0
    refine ⟨h1, h3, ?_⟩
    unfold generate_word_data
    rw [h4]
    apply List.map_congr_left
    intro i _
    push_cast
    ring
  · intro rss rest prog log
    exact runBatches_untilFailure rest rss prog log

/-- C3 counterexample: with maxRetries = 3 and a generator that always
fails, exactly three invocations happen with sleeps of retryDelay and
2 * retryDelay between them, and then the failure escapes; the claimed
reading, an initial attempt plus up to maxRetries retries, would make
four invocations. -/
theorem claim3_counterexample :
    (generate_word_data (fun _ => none) 3 5).1 = Except.error () ∧
    (generate_word_data (fun _ => none) 3 5).2.1 = 3 ∧
    (generate_word_data (fun _ => none) 3 5).2.2 = [5, 10] ∧
    (generate_word_data (fun _ => none) 3 5).2.1 ≠ 3 + 1 := by
  refine ⟨rfl, rfl, ?_, by decide⟩
  have h4 := (genAttempts_shape (fun _ => none) 5 3 0).2.2.2
  have hn : (genAttempts (fun _ : Nat => none) 5 0 3).2.1 = 3 := rfl
  rw [show (generate_word_data (fun _ : Nat => none) 3 5).2.2 =
    (genAttempts (fun _ : Nat => none) 5 0 3).2.2 from rfl, h4, hn]
  norm_num [List.range_succ]

/-- Witness for the amended C3 at concrete inputs: an always-failing
generator with two allowed attempts makes exactly two invocations, and
a run whose second batch fails keeps the first batch appended and
processes exactly one batch. -/
theorem claim3_witness :
    (generate_word_data (fun _ => none) 2 7).2.1 = 2 ∧
    runBatches [Except.ok [⟨"cat", "k", []⟩], Except.error ()] [] [] =
      ([("cat", ⟨"cat", "k", []⟩)], [⟨"cat", "k", []⟩], 1) := by
  constructor
  · exact (claim3_retry_backoff_and_abort.1 (fun _ => none) 7 2).2.1 rfl
  · have h := claim3_retry_backoff_and_abort.2 [[⟨"cat", "k", []⟩]] [] [] []
    exact h.trans (by decide)

/-- C10: when the generator response for a batch parses as a list that
lacks records for some words of the batch, the attempt still succeeds
with exactly the returned records (the missing words only produce a
warning); the batch loop appends only the returned records to the
checkpoint; a missing word with no prior checkpoint entry still has no
entry afterwards; and on a subsequent run such a word is recomputed as
pending. -/
theorem claim10_partial_batch_persists :
    ∀ (oracle : Nat → Option (List WordEntry)) (δ : ℚ) (m : Nat)
      (ws : List String) (rs : List WordEntry)
      (prog : List (String × WordEntry)) (log : List WordEntry),
      oracle 0 = some rs →
      missingWords ws rs ≠ [] →
      genAttempts oracle δ 0 (m + 1) = (Except.ok rs, 1, []) ∧
      runBatches [Except.ok rs] prog log =
        (updateProgress prog rs, log ++ rs, 1) ∧
      (∀ w ∈ missingWords ws rs, List.lookup (strLower w) prog = none →
        List.lookup (strLower w) (updateProgress prog rs) = none) ∧
      (∀ (source : List SrcWord) (e : SrcWord), e ∈ source →
        e.word ∈ missingWords ws rs →
        List.lookup (strLower e.word) prog = none →
        e.word ∈ words_needing_api source (updateProgress prog rs)) := by
  intro oracle δ m ws rs prog log ho hmiss
  refine ⟨?_, ?_, ?_, ?_⟩
  · unfold genAttempts
    rw [ho]
  · simp [runBatches, collect_valid_results_eq]
  · intro w hw hnone
    rw [lookup_updateProgress_ne (strLower w) rs prog
      (missing_not_in_results ws rs w hw)]
    exact hnone
  · intro source e hsrc hmem hnone
    unfold words_needing_api
    apply List.mem_map.mpr
    refine ⟨e, ?_, rfl⟩
    apply List.mem_filter.mpr
    refine ⟨hsrc, ?_⟩
    rw [lookup_updateProgress_ne (strLower e.word) rs prog
      (missing_not_in_results ws rs e.word hmem), hnone]
    rfl

/-- Witness for C10 at a concrete batch of two words with a
one-record response: the attempt succeeds, the missing word has no
checkpoint entry, it is pending on the next run, and the batch
persisted strictly fewer records than it has words. -/
theorem claim10_witness :
    genAttempts (fun _ => some [⟨"Cat", "k", []⟩]) 5 0 3 =
      (Except.ok [⟨"Cat", "k", []⟩], 1, []) ∧
    List.lookup ("dog") (updateProgress [] [⟨"Cat", "k", []⟩]) = none ∧
    "dog" ∈ words_needing_api [⟨"dog", [], []⟩]
      (updateProgress [] [⟨"Cat", "k", []⟩]) ∧
    [(⟨"Cat", "k", []⟩ : WordEntry)].length <
      (["cat", "dog"] : List String).length := by
  have h := claim10_partial_batch_persists (fun _ => some [⟨"Cat", "k", []⟩]) 5 2
    ["cat", "dog"] [⟨"Cat", "k", []⟩] [] [] rfl (by decide)
  refine ⟨h.1, ?_, ?_, by decide⟩
  · exact h.2.2.1 "dog" (by decide) rfl
  · exact h.2.2.2 [⟨"dog", [], []⟩] ⟨"dog", [], []⟩ (by decide) (by decide) rfl

/-- C7: a record whose example at index i is missing its translation
field produces an issue string embedding the record identifier; the
record is nevertheless appended unchanged by the validation loop, lands
in the checkpoint log of its batch, its generated fields survive the
merge unmodified when it is the checkpoint entry of a source item, and
the merged record appears in the final artifact. -/
theorem claim7_validation_nonfatal :
    ∀ (entry : WordEntry) (i : Nat) (ex : ExampleEntry),
      entry.examples[i]? = some ex →
      ex.translation_cn = "" →
      (("Example " ++ toString (i + 1) ++ " missing \x27translation_cn\x27 for: "
          ++ entry.word) ∈ validate_word_entry entry) ∧
      (∀ results : List WordEntry, entry ∈ results →
        entry ∈ collect_valid_results results) ∧
      (∀ (rs : List WordEntry) (prog : List (String × WordEntry))
        (log : List WordEntry), entry ∈ rs →
        entry ∈ (runBatches [Except.ok rs] prog log).2.1) ∧
      (∀ (progress : List (String × WordEntry)) (e : SrcWord),
        List.lookup (strLower e.word) progress = some entry →
        entry.examples ≠ [] →
        (mergeWord progress e).phonetic = entry.phonetic ∧
        (mergeWord progress e).examples = entry.examples) ∧
      (∀ (raw : List RawSourceEntry) (progress : List (String × WordEntry))
        (e : SrcWord), e ∈ load_source_data raw →
        mergeWord progress e ∈ finalWords raw progress) := by
  intro entry i ex hget htr
  refine ⟨?_, ?_, ?_, ?_, ?_⟩
  · simp only [validate_word_entry]
    apply List.mem_append_right
    apply List.mem_flatten.mpr
    refine ⟨exampleIssues entry.word i ex, ?_, ?_⟩
    · exact List.mem_map.mpr
        ⟨(i, ex), List.mk_mem_enum_iff_getElem?.mpr hget, rfl⟩
    · unfold exampleIssues
      apply List.mem_append_right
      rw [if_pos htr]
      exact List.mem_singleton.mpr rfl
  · intro results hmem
    rw [collect_valid_results_eq]
    exact hmem
  · intro rs prog log hmem
    have hlog : (runBatches [Except.ok rs] prog log).2.1 = log ++ rs := by
      simp [runBatches, collect_valid_results_eq]
    rw [hlog]
    exact List.mem_append_right log hmem
  · intro progress e hlook hne
    constructor
    · simp only [mergeWord, hlook]
    · simp only [mergeWord, hlook]
      rw [if_neg (fun hc => hne hc.1)]
  · intro raw progress e hsrc
    unfold finalWords sortOutput
    have hperm := List.perm_insertionSort byWordLe
      ((load_source_data raw).map (mergeWord progress))
    exact hperm.mem_iff.mpr (List.mem_map_of_mem (mergeWord progress) hsrc)

/-- Witness for C7 at a concrete record: the first example lacks its
translation; the issue string names the record, and the record's
fields pass through the merge unchanged. -/
theorem claim7_witness :
    ("Example 1 missing \x27translation_cn\x27 for: cat"
      ∈ validate_word_entry ⟨"cat", "/k/", [⟨"A cat sat.", ""⟩, ⟨"B.", "乙"⟩]⟩) ∧
    (mergeWord [("cat", ⟨"cat", "/k/", [⟨"A cat sat.", ""⟩, ⟨"B.", "乙"⟩]⟩)]
        ⟨"cat", [], []⟩).examples = [⟨"A cat sat.", ""⟩, ⟨"B.", "乙"⟩] := by
  have h := claim7_validation_nonfatal
    ⟨"cat", "/k/", [⟨"A cat sat.", ""⟩, ⟨"B.", "乙"⟩]⟩ 0 ⟨"A cat sat.", ""⟩
    rfl rfl
  refine ⟨h.1, ?_⟩
  have h4 := h.2.2.2.1
    [("cat", ⟨"cat", "/k/", [⟨"A cat sat.", ""⟩, ⟨"B.", "乙"⟩]⟩)]
    ⟨"cat", [], []⟩ rfl (by decide)
  exact h4.2

/-! ## Lemmas about the stable sorts -/

theorem filter_insertionSort_key {α : Type} (r : α → α → Prop) [DecidableRel r]
    (p : α → Bool) (hp : ∀ a b, p a = true → p b = true → r a b)
    (l : List α) :
    (List.insertionSort r l).filter p = l.filter p := by
  have hsub : List.Sublist (l.filter p) l := List.filter_sublist l
  have hpair : (l.filter p).Pairwise r := by
    apply List.pairwise_of_forall_mem_list
    intro a ha b hb
    exact hp a b (List.of_mem_filter ha) (List.of_mem_filter hb)
  have hs2 : List.Sublist (l.filter p) (List.insertionSort r l) :=
    List.sublist_insertionSort hpair hsub
  have hidem : (l.filter p).filter p = l.filter p :=
    List.filter_eq_self.mpr (fun a ha => List.of_mem_filter ha)
  have hs3 : List.Sublist (l.filter p) ((List.insertionSort r l).filter p) := by
    have h := hs2.filter p
    rwa [hidem] at h
  have hlen : ((List.insertionSort r l).filter p).length = (l.filter p).length :=
    ((List.perm_insertionSort r l).filter p).length_eq
  exact (hs3.eq_of_length hlen.symm).symm

/-- C6 (amended): the cet4 generator sorts its output records as a
stable total preorder on the lower-cased word; but the kanji generator
sorts its output records by ascending frequency key (a falsy frequency
counts as 9999), stably, not by the identifier. -/
theorem claim6_sort_behaviour :
    (∀ l : List OutputWord,
      (sortOutput l).Sorted byWordLe ∧
      List.Perm (sortOutput l) l ∧
      (∀ a b : OutputWord, byWordLe a b ∨ byWordLe b a) ∧
      (∀ k : String, (sortOutput l).filter (fun r => strLower r.word == k) =
        l.filter (fun r => strLower r.word == k))) ∧
    (∀ l : List KanjiOut,
      (sortKanji l).Sorted byFreqLe ∧
      List.Perm (sortKanji l) l ∧
      (∀ n : Nat, (sortKanji l).filter (fun r => freqKey r.frequency == n) =
        l.filter (fun r => freqKey r.frequency == n))) := by
  constructor
  · intro l
    refine ⟨List.sorted_insertionSort byWordLe l,
      List.perm_insertionSort byWordLe l,
      fun a b => IsTotal.total a b, ?_⟩
    intro k
    apply filter_insertionSort_key
    intro a b ha hb
    unfold byWordLe
    rw [eq_of_beq ha, eq_of_beq hb]
  · intro l
    refine ⟨List.sorted_insertionSort byFreqLe l,
      List.perm_insertionSort byFreqLe l, ?_⟩
    intro n
    apply filter_insertionSort_key
    intro a b ha hb
    unfold byFreqLe
    rw [eq_of_beq ha, eq_of_beq hb]

/-- C6 counterexample: two kanji output records on which the kanji
sort step orders by frequency against the case-insensitive identifier
order, so the sort step is not the claimed identifier ordering: the
result places the identifier-larger record first and is not sorted by
identifier. -/
theorem claim6_counterexample :
    sortKanji [⟨"一", "", "", "", none, some 2, "N5", 5, []⟩,
               ⟨"日", "", "", "", none, some 1, "N5", 5, []⟩] =
      [⟨"日", "", "", "", none, some 1, "N5", 5, []⟩,
       ⟨"一", "", "", "", none, some 2, "N5", 5, []⟩] ∧
    ¬ List.Sorted (fun a b : KanjiOut => strLower a.word ≤ strLower b.word)
      (sortKanji [⟨"一", "", "", "", none, some 2, "N5", 5, []⟩,
                  ⟨"日", "", "", "", none, some 1, "N5", 5, []⟩]) := by
  constructor
  · rfl
  · intro hs
    have h := List.rel_of_sorted_cons hs
      ⟨"一", "", "", "", none, some 2, "N5", 5, []⟩ (by decide)
    have hlt : strLower ("一") < strLower ("日") := by
      rw [String.lt_iff_toList_lt]
      decide
    exact absurd h (not_le.mpr hlt)

/-- Witness for the amended C6 at concrete lists: the word sort orders
two records case-insensitively and keeps tied records in input order;
the kanji sort orders by frequency. -/
theorem claim6_witness :
    (sortOutput [⟨"Dog", "", "", "", 1, []⟩, ⟨"cat", "", "", "a", 1, []⟩,
        ⟨"CAT", "", "", "b", 1, []⟩]).Sorted byWordLe ∧
    (sortOutput [⟨"Dog", "", "", "", 1, []⟩, ⟨"cat", "", "", "a", 1, []⟩,
        ⟨"CAT", "", "", "b", 1, []⟩]).filter
        (fun r => strLower r.word == "cat") =
      [⟨"cat", "", "", "a", 1, []⟩, ⟨"CAT", "", "", "b", 1, []⟩] := by
  have h := claim6_sort_behaviour.1
    [⟨"Dog", "", "", "", 1, []⟩, ⟨"cat", "", "", "a", 1, []⟩,
     ⟨"CAT", "", "", "b", 1, []⟩]
  refine ⟨h.1, ?_⟩
  rw [h.2.2.2 "cat"]
  decide

/-! ## Lemmas about the source loader key set -/

theorem any_key_iff {β : Type} (m : List (String × β)) (w : String) :
    m.any (fun p => p.1 == w) = true ↔ w ∈ m.map (fun p => p.1) := by
  simp only [List.any_eq_true, List.mem_map, beq_iff_eq]

theorem sourceStep_none (m : List (String × SrcWord)) (e : RawSourceEntry)
    (h : srcKey e = none) : sourceStep m e = m := by
  have hw : strLower (strStrip e.word) = "" := by
    by_contra hc
    unfold srcKey at h
    rw [if_neg hc] at h
    cases h
  simp only [sourceStep]
  rw [if_pos hw]

theorem map_fst_mergeUpdate (w : String) (e : RawSourceEntry) :
    ∀ mm : List (String × SrcWord),
      (mm.map (fun p =>
        if p.1 == w then
          (p.1, { p.2 with
                   translations := mergeDedup p.2.translations e.translations,
                   phrases := mergeDedup p.2.phrases e.phrases })
        else p)).map (fun p => p.1) = mm.map (fun p => p.1) := by
  intro mm
  rw [List.map_map]
  apply List.map_congr_left
  intro p _
  simp only [Function.comp_apply]
  split <;> rfl

theorem srcKey_some_parts (e : RawSourceEntry) (w : String)
    (h : srcKey e = some w) :
    strLower (strStrip e.word) ≠ "" ∧ w = strLower (strStrip e.word) := by
  have hne : strLower (strStrip e.word) ≠ "" := by
    intro hc
    unfold srcKey at h
    rw [if_pos hc] at h
    cases h
  refine ⟨hne, ?_⟩
  unfold srcKey at h
  rw [if_neg hne] at h
  cases h
  rfl

theorem sourceStep_keys_mem (m : List (String × SrcWord)) (e : RawSourceEntry)
    (w : String) (h : srcKey e = some w)
    (hmem : w ∈ m.map (fun p => p.1)) :
    (sourceStep m e).map (fun p => p.1) = m.map (fun p => p.1) := by
  obtain ⟨hne, hweq⟩ := srcKey_some_parts e w h
  subst hweq
  simp only [sourceStep]
  rw [if_neg hne, if_pos ((any_key_iff m _).mpr hmem)]
  exact map_fst_mergeUpdate _ e m

theorem sourceStep_keys_new (m : List (String × SrcWord)) (e : RawSourceEntry)
    (w : String) (h : srcKey e = some w)
    (hmem : w ∉ m.map (fun p => p.1)) :
    (sourceStep m e).map (fun p => p.1) = m.map (fun p => p.1) ++ [w] := by
  obtain ⟨hne, hweq⟩ := srcKey_some_parts e w h
  subst hweq
  simp only [sourceStep]
  rw [if_neg hne, if_neg (fun hc => hmem ((any_key_iff m _).mp hc))]
  rw [map_fst_mergeUpdate _ e]
  simp

theorem sourceFold_keys :
    ∀ (raw : List RawSourceEntry) (m : List (String × SrcWord)),
      (m.map (fun p => p.1)).Nodup →
      ((raw.foldl sourceStep m).map (fun p => p.1)).Nodup ∧
      ((raw.foldl sourceStep m).map (fun p => p.1)).toFinset =
        (m.map (fun p => p.1)).toFinset ∪ (raw.filterMap srcKey).toFinset
  | [], _, hm => ⟨hm, by simp⟩
  | e :: raw, m, hm => by
    rw [List.foldl_cons]
    cases hsk : srcKey e with
    | none =>
      rw [sourceStep_none m e hsk]
      obtain ⟨h1, h2⟩ := sourceFold_keys raw m hm
      refine ⟨h1, ?_⟩
      rw [h2]
      simp [List.filterMap_cons, hsk]
    | some w =>
      by_cases hmem : w ∈ m.map (fun p => p.1)
      · have hkeys := sourceStep_keys_mem m e w hsk hmem
        obtain ⟨h1, h2⟩ := sourceFold_keys raw (sourceStep m e) (hkeys ▸ hm)
        refine ⟨h1, ?_⟩
        rw [h2, hkeys, List.filterMap_cons, hsk, List.toFinset_cons]
        ext x
        simp only [Finset.mem_union, Finset.mem_insert]
        constructor
        · rintro (hx | hx)
          · exact Or.inl hx
          · exact Or.inr (Or.inr hx)
        · rintro (hx | rfl | hx)
          · exact Or.inl hx
          · exact Or.inl (List.mem_toFinset.mpr hmem)
          · exact Or.inr hx
      · have hkeys := sourceStep_keys_new m e w hsk hmem
        have hm' : ((sourceStep m e).map (fun p => p.1)).Nodup := by
          rw [hkeys]
          simp [List.nodup_append, hm, hmem]
        obtain ⟨h1, h2⟩ := sourceFold_keys raw (sourceStep m e) hm'
        refine ⟨h1, ?_⟩
        rw [h2, hkeys, List.filterMap_cons, hsk, List.toFinset_append,
          List.toFinset_cons]
        ext x
        simp only [Finset.mem_union, Finset.mem_insert, List.toFinset_cons,
          List.mem_toFinset, List.mem_singleton, List.toFinset_nil,
          Finset.not_mem_empty, or_false]
        constructor
        · rintro ((hx | hx) | hx)
          · exact Or.inl hx
          · exact Or.inr (Or.inl hx)
          · exact Or.inr (Or.inr hx)
        · rintro (hx | rfl | hx)
          · exact Or.inl (Or.inl hx)
          · exact Or.inl (Or.inr rfl)
          · exact Or.inr hx

theorem load_source_data_length (raw : List RawSourceEntry) :
    (load_source_data raw).length = (raw.filterMap srcKey).toFinset.card := by
  obtain ⟨h1, h2⟩ := sourceFold_keys raw [] (by simp)
  unfold load_source_data
  rw [List.length_map]
  have hlen : (raw.foldl sourceStep []).length =
      ((raw.foldl sourceStep []).map (fun p => p.1)).length :=
    (List.length_map _ _).symm
  rw [hlen, ← List.toFinset_card_of_nodup h1, h2]
  simp

/-- C1: the merge step emits exactly one output record per distinct
source item id. For the cet4 generator: the final artifact word count
equals the number of distinct normalized ids among the raw source
entries, every deduplicated source item contributes its merged record
to the final artifact whatever the checkpoint state, and an item with
no enrichment record gets the empty phonetic and, when it has no
source phrases either, the empty example list. For the kanji
generator: one output record per source kanji, and an item with no
enrichment record gets empty strings and an empty example list. -/
theorem claim1_merge_complete :
    (∀ (raw : List RawSourceEntry) (progress : List (String × WordEntry)),
      (finalWords raw progress).length = (raw.filterMap srcKey).toFinset.card ∧
      (∀ e ∈ load_source_data raw, mergeWord progress e ∈ finalWords raw progress) ∧
      (∀ e ∈ load_source_data raw,
        List.lookup (strLower e.word) progress = none →
        (mergeWord progress e).phonetic = "" ∧
        (e.phrases = [] → (mergeWord progress e).examples = []))) ∧
    (∀ (src : List KanjiSrc) (progress : List (String × KanjiData))
      (level : String) (difficulty : Nat),
      (kanjiWords src progress level difficulty).length = src.length ∧
      (∀ e ∈ src, mergeKanji progress level difficulty e ∈
        kanjiWords src progress level difficulty) ∧
      (∀ e ∈ src, List.lookup e.kanji progress = none →
        (mergeKanji progress level difficulty e).translation_cn = "" ∧
        (mergeKanji progress level difficulty e).onyomi = "" ∧
        (mergeKanji progress level difficulty e).kunyomi = "" ∧
        (mergeKanji progress level difficulty e).examples = [])) := by
  constructor
  · intro raw progress
    refine ⟨?_, ?_, ?_⟩
    · unfold finalWords sortOutput
      rw [(List.perm_insertionSort byWordLe _).length_eq, List.length_map]
      exact load_source_data_length raw
    · intro e he
      unfold finalWords sortOutput
      exact (List.perm_insertionSort byWordLe _).mem_iff.mpr
        (List.mem_map_of_mem (mergeWord progress) he)
    · intro e _ hnone
      constructor
      · simp only [mergeWord, hnone]
      · intro hphr
        simp [mergeWord, hnone, hphr]
  · intro src progress level difficulty
    refine ⟨?_, ?_, ?_⟩
    · unfold kanjiWords sortKanji
      rw [(List.perm_insertionSort byFreqLe _).length_eq, List.length_map]
    · intro e he
      unfold kanjiWords sortKanji
      exact (List.perm_insertionSort byFreqLe _).mem_iff.mpr
        (List.mem_map_of_mem (mergeKanji progress level difficulty) he)
    · intro e _ hnone
      refine ⟨?_, ?_, ?_, ?_⟩ <;> simp only [mergeKanji, hnone]

/-- Witness for C1 at concrete inputs: three raw entries with two
distinct case-insensitive ids produce a two-word artifact from an
empty checkpoint, the unenriched item has an empty phonetic, and one
source kanji produces a one-record artifact. -/
theorem claim1_witness :
    (finalWords [⟨"Cat", [], []⟩, ⟨"cat ", [], []⟩, ⟨"dog", [], []⟩] []).length
      = 2 ∧
    (mergeWord [] ⟨"Cat", [], []⟩).phonetic = "" ∧
    (kanjiWords [⟨"日", some 4, some 1, ""⟩] [] "N5" 5).length = 1 := by
  have h := claim1_merge_complete.1
    [⟨"Cat", [], []⟩, ⟨"cat ", [], []⟩, ⟨"dog", [], []⟩] []
  have hk := claim1_merge_complete.2 [⟨"日", some 4, some 1, ""⟩] [] "N5" 5
  refine ⟨?_, ?_, hk.1⟩
  · rw [h.1]
    decide
  · exact (h.2.2 ⟨"Cat", [], []⟩ (by decide) rfl).1

end Wordmaster
